import Mathlib

/-!
Shallow embedding of the scaleway/k8s-agent component lifecycle engine,
version store, release catalog resolver and node reconciliation controller.

Side effects (file writes, systemctl invocations, script execution, network
fetches, template rendering) are abstracted by oracles passed as parameters;
every run additionally produces an explicit trace of the effectful operations
it performed, so ordering and "zero calls" properties can be stated on the
trace.
-/

namespace K8sAgent

/-! Section: Version helpers (expandVersion / trimVersion, versions.go) -/

/-- Go `expandVersion` from versions.go: empty version means the default
(pool) version, a version starting with `~` is a sub-version appended to the
default, anything else is taken verbatim. -/
def expandVersion (version defaultVersion : String) : String :=
  if version = "" then defaultVersion
  else if version.data.head? = some '~' then defaultVersion ++ version
  else version

/-- Go `trimVersion` from versions.go: `strings.Split(version, "~")[0]`,
i.e. the prefix of the version before the first `~` (the whole version when
no `~` occurs), here computed directly on the character list. -/
def trimVersion (version : String) : String :=
  ⟨version.data.takeWhile (fun ch => ch ≠ '~')⟩

/-! Section: Version Store (SetComponentVersion / GetComponentVersion, versions.go)

The JSON file `/etc/scw-k8s-versions.json` is modelled as
`Option StoreMap`: `none` is a missing file, `some m` a file holding the
string-to-string object `m` (an association list with the JSON object's
keys). I/O and unmarshalling errors are outside the model. -/

abbrev StoreMap := List (String × String)

/-- Update of one key in the decoded JSON object (Go map assignment
`versions[component] = version`): replace the entry if the key is present,
append it otherwise. -/
def storeSet : StoreMap → String → String → StoreMap
  | [], k, v => [(k, v)]
  | (k', v') :: rest, k, v =>
      if k' = k then (k, v) :: rest else (k', v') :: storeSet rest k v

abbrev VFile := Option StoreMap

/-- Go `SetComponentVersion`: read the whole store (a missing file reads as the
empty object), merge in the one change, rewrite the whole file. -/
def SetComponentVersion (file : VFile) (component version : String) : VFile :=
  some (storeSet (file.getD []) component version)

/-- Go `GetComponentVersion`: read the store (missing file reads as empty) and
look the component up; a missing key yields `""`, never an error. -/
def GetComponentVersion (file : VFile) (component : String) : String :=
  ((file.getD []).lookup component).getD ""

/-! Section: Release catalog resolver (releaseComponents, release.go) -/

structure Component where
  Name : String
  Version : String
  Tags : List String
deriving DecidableEq, Repr

/-- The fields of `NodeMetadata` (metadata.go) the lifecycle engine reads. -/
structure NodeMetadata where
  PoolVersion : String
  InstallerTags : List String
deriving DecidableEq, Repr

/-- The decoded `releases.yaml`: cluster-version string to ordered component
list. -/
abbrev Releases := List (String × List Component)

/-- The tag filter loop of `releaseComponents`: a component is appended when
some installer tag occurs among its tags (`slices.Contains` + `break`). -/
def filterByTags (tags : List String) : List Component → List Component
  | [] => []
  | c :: rest =>
      if tags.any (fun t => c.Tags.contains t) then
        c :: filterByTags tags rest
      else
        filterByTags tags rest

/-- Go `releaseComponents` (release.go): look the pool version up in the
releases map (missing entry is a hard error); with no installer tags return
every component of the entry, otherwise keep the components matching at
least one installer tag, in order. -/
def releaseComponents (releases : Releases) (nodemetadata : NodeMetadata) :
    Except String (List Component) :=
  match releases.lookup nodemetadata.PoolVersion with
  | none => .error ("release " ++ nodemetadata.PoolVersion ++ " not found")
  | some releaseComponents =>
      if nodemetadata.InstallerTags = [] then
        .ok releaseComponents
      else
        .ok (filterByTags nodemetadata.InstallerTags releaseComponents)

/-! Section: Service operations (processComponentServices, part_001)

`systemctl` invocations are abstracted by an oracle `SysOp → CmdResult`;
`CmdResult.exitErr n` is a `*exec.ExitError` with exit code `n`,
`CmdResult.failed` any other error of `cmd.Run()`. -/

inductive SysOp where
  | daemonReload
  | enable (unit : String)
  | disable (unit : String)
  | start (unit : String)
  | stop (unit : String)
deriving DecidableEq, Repr

inductive CmdResult where
  | ok
  | exitErr (code : Int)
  | failed
deriving DecidableEq, Repr

structure ComponentService where
  State : String
  Name : String
  Enabled : Bool
deriving DecidableEq, Repr

/-- The `switch service.State` at the end of each loop iteration of
`processComponentServices`: start or stop the unit; a stop failing as an
`ExitError` with code 5 (unit does not exist) is ignored; an unknown state
string is an error. Returns the ops attempted and the error, if any. -/
def serviceStateStep (σ : SysOp → CmdResult) (service : ComponentService) :
    List SysOp × Option String :=
  match service.State with
  | "started" =>
      match σ (.start service.Name) with
      | .ok => ([.start service.Name], none)
      | _ => ([.start service.Name], some ("failed to start service " ++ service.Name))
  | "stopped" =>
      match σ (.stop service.Name) with
      | .ok => ([.stop service.Name], none)
      | .exitErr 5 => ([.stop service.Name], none)
      | _ => ([.stop service.Name], some ("failed to stop service " ++ service.Name))
  | other => ([], some ("unknown service state: " ++ other))

/-- The per-service loop of `processComponentServices`: enable or disable the
unit (a disable failing as an `ExitError` with code 1 — unit does not
exist — `continue`s to the next service, skipping the state switch), then
run the state switch. -/
def servicesLoop (σ : SysOp → CmdResult) : List ComponentService → List SysOp × Option String
  | [] => ([], none)
  | service :: rest =>
      if service.Enabled then
        match σ (.enable service.Name) with
        | .ok =>
            let (t1, e1) := serviceStateStep σ service
            match e1 with
            | some err => (.enable service.Name :: t1, some err)
            | none =>
                let (t2, e2) := servicesLoop σ rest
                (.enable service.Name :: (t1 ++ t2), e2)
        | _ => ([.enable service.Name], some ("failed to enable service " ++ service.Name))
      else
        match σ (.disable service.Name) with
        | .ok =>
            let (t1, e1) := serviceStateStep σ service
            match e1 with
            | some err => (.disable service.Name :: t1, some err)
            | none =>
                let (t2, e2) := servicesLoop σ rest
                (.disable service.Name :: (t1 ++ t2), e2)
        | .exitErr 1 =>
            let (t2, e2) := servicesLoop σ rest
            (.disable service.Name :: t2, e2)
        | _ => ([.disable service.Name], some ("failed to disable service " ++ service.Name))

/-- Go `processComponentServices`: one `daemon-reload` first (its failure aborts
the batch), then the per-service loop. -/
def processComponentServices (σ : SysOp → CmdResult) (services : List ComponentService) :
    List SysOp × Option String :=
  match σ .daemonReload with
  | .ok =>
      let (t, e) := servicesLoop σ services
      (.daemonReload :: t, e)
  | _ => ([.daemonReload], some "failed to daemon-reload")

/-! Section: File operations (processComponentFiles, part_001)

Path templating (`templateComponentPath`, Go `text/template` over the path
with a `{Version, Arch}` context) is abstracted by an oracle
`tp : String → String → Except String String` taking the path and the
`Version` context value; the filesystem-touching primitives (`writeFile`,
`templateFile`, `mkdir`, `os.RemoveAll`) by a success oracle over the
attempted `FileAction`. -/

structure ComponentFile where
  State : String
  Src : String
  Dst : String
  Mode : String
  Owner : String
  Group : String
deriving DecidableEq, Repr

inductive FileAction where
  | copy (name src dst mode owner group : String)
  | render (name src dst mode owner group : String)
  | mkdir (dst mode owner group : String)
  | removeAll (dst : String)
deriving DecidableEq, Repr

/-- Go `templateComponentPath`: render the path template against a context
whose `Version` field is the trimmed version (and whose `Arch` field is the
runtime architecture, fixed inside the oracle). -/
def templateComponentPath (tp : String → String → Except String String)
    (path version : String) : Except String String :=
  tp path (trimVersion version)

/-- Go `processComponentFiles`: for each entry template the source and
destination paths, then dispatch on the state string: `file` copies,
`template` renders, `directory` creates (note: the source passes the raw
`file.Dst`, not the templated one, to `mkdir`), `absent` removes; any other
state falls through the switch without an action. Returns the actions
attempted and the error, if any. -/
def processComponentFiles (tp : String → String → Except String String)
    (φ : FileAction → Bool) (name version : String) :
    List ComponentFile → List FileAction × Option String
  | [] => ([], none)
  | file :: rest =>
      match templateComponentPath tp file.Src version with
      | .error _ => ([], some "failed to template source path")
      | .ok src =>
        match templateComponentPath tp file.Dst version with
        | .error _ => ([], some "failed to template destination path")
        | .ok dst =>
          match file.State with
          | "file" =>
              let a := FileAction.copy name src dst file.Mode file.Owner file.Group
              if φ a then
                let (t, e) := processComponentFiles tp φ name version rest
                (a :: t, e)
              else ([a], some ("failed to write file " ++ file.Dst))
          | "template" =>
              let a := FileAction.render name src dst file.Mode file.Owner file.Group
              if φ a then
                let (t, e) := processComponentFiles tp φ name version rest
                (a :: t, e)
              else ([a], some ("failed to write file " ++ file.Dst))
          | "directory" =>
              let a := FileAction.mkdir file.Dst file.Mode file.Owner file.Group
              if φ a then
                let (t, e) := processComponentFiles tp φ name version rest
                (a :: t, e)
              else ([a], some ("failed to make directory " ++ dst))
          | "absent" =>
              let a := FileAction.removeAll dst
              if φ a then
                let (t, e) := processComponentFiles tp φ name version rest
                (a :: t, e)
              else ([a], some ("failed to remove " ++ dst))
          | _ => processComponentFiles tp φ name version rest

/-! Section: Script operations (processComponentScripts, part_001) -/

structure ComponentScript where
  Cmd : String
deriving DecidableEq, Repr

/-- Go `processComponentScripts`: run each command through `/bin/bash -c`; a
failure aborts. The oracle gives each command's success. -/
def processComponentScripts (ψ : String → Bool) :
    List ComponentScript → List String × Option String
  | [] => ([], none)
  | script :: rest =>
      if ψ script.Cmd then
        let (t, e) := processComponentScripts ψ rest
        (script.Cmd :: t, e)
      else ([script.Cmd], some ("failed to execute script " ++ script.Cmd))

/-! Section: Recipes and component metadata (part_001) -/

structure ComponentResources where
  Files : List ComponentFile
  Services : List ComponentService
  Scripts : List ComponentScript
deriving DecidableEq, Repr

structure ComponentSections where
  Install : List ComponentResources
  Uninstall : List ComponentResources
deriving DecidableEq, Repr

/-- The repository seen through `componentMetada`: for a component name, the
decoded `name/metadata.yaml` (a map from base-version string to sections),
or `none` when reading or unmarshalling fails. -/
abbrev Repo := String → Option (List (String × ComponentSections))

/-- Go `componentMetada`: read and decode the component's `metadata.yaml`, trim
the sub-version suffix off the requested version, and look the trimmed
version up. -/
def componentMetada (repoFS : Repo) (name version : String) :
    Except String ComponentSections :=
  match repoFS name with
  | none => .error "failed to read component file"
  | some table =>
      match table.lookup (trimVersion version) with
      | none => .error ("component version " ++ trimVersion version ++ " not found")
      | some sections => .ok sections

/-! Section: Processing a component's resource groups (processComponentMetada) -/

/-- One effectful operation performed by the engine, as recorded in a run's
trace. `setVer` is a write to the Version Store; the other three are the
resource applications delegated to the file/service/script primitives. -/
inductive Event where
  | file (a : FileAction)
  | sys (o : SysOp)
  | script (cmd : String)
  | setVer (name version : String)
deriving DecidableEq, Repr

/-- The collaborator oracles of one engine run: path-template rendering,
file primitives, `systemctl`, and `/bin/bash` script execution. -/
structure Env where
  tp : String → String → Except String String
  fileRes : FileAction → Bool
  sys : SysOp → CmdResult
  script : String → Bool

/-- Predicate `Event.isSetVer e = true` exactly when `e` is a Version Store write. -/
def Event.isSetVer : Event → Bool
  | .setVer _ _ => true
  | _ => false

/-- One `ComponentResources` group of the `processComponentMetada` loop:
files, then services, then scripts, aborting at the first error. -/
def processOneResource (env : Env) (name version : String) (resource : ComponentResources) :
    List Event × Option String :=
  let (ft, fe) := processComponentFiles env.tp env.fileRes name version resource.Files
  match fe with
  | some err => (ft.map .file, some err)
  | none =>
      let (st, se) := processComponentServices env.sys resource.Services
      match se with
      | some err => (ft.map .file ++ st.map .sys, some err)
      | none =>
          let (ct, ce) := processComponentScripts env.script resource.Scripts
          (ft.map .file ++ st.map .sys ++ ct.map .script, ce)

/-- The loop of `processComponentMetada` over all resource groups. -/
def processResources (env : Env) (name version : String) :
    List ComponentResources → List Event × Option String
  | [] => ([], none)
  | resource :: rest =>
      let (t, e) := processOneResource env name version resource
      match e with
      | some err => (t, some err)
      | none =>
          let (t2, e2) := processResources env name version rest
          (t ++ t2, e2)

/-- Go `processComponentMetada`: process every resource group of the section in
order, and — only when all of them succeeded — store `version` for the
component in the versions file, as the final step. -/
def processComponentMetada (env : Env) (name version : String)
    (resources : List ComponentResources) (st : VFile) :
    List Event × VFile × Option String :=
  let (t, e) := processResources env name version resources
  match e with
  | some err => (t, st, some err)
  | none => (t ++ [.setVer name version], SetComponentVersion st name version, none)

/-! Section: Lifecycle engine passes (uninstallComponents / installComponents) -/

/-- The per-component loop of `uninstallComponents` (the caller hands it the
already reversed component list). A component is skipped when it has no
Version Store entry or the entry equals the expanded target; otherwise its
recipe block is selected by the trimmed *stored* version, and its
`uninstall` groups are processed with `processComponentMetada` under the
fixed version string `"uninstalled"`. The `ctx.Done()` check is modelled as
never fired (no cancellation). -/
def uninstallLoop (env : Env) (repoFS : Repo) (nodemetadata : NodeMetadata) (st : VFile) :
    List Component → List Event × VFile × Option String
  | [] => ([], st, none)
  | component :: rest =>
      let installedVersion := GetComponentVersion st component.Name
      let expectedVersion := expandVersion component.Version nodemetadata.PoolVersion
      if installedVersion = "" ∨ installedVersion = expectedVersion then
        uninstallLoop env repoFS nodemetadata st rest
      else
        match componentMetada repoFS component.Name installedVersion with
        | .error err => ([], st, some err)
        | .ok sections =>
            let (t, st', e) :=
              processComponentMetada env component.Name "uninstalled" sections.Uninstall st
            match e with
            | some err => (t, st', some err)
            | none =>
                let (t2, st2, e2) := uninstallLoop env repoFS nodemetadata st' rest
                (t ++ t2, st2, e2)

/-- Go `uninstallComponents`: copy and reverse the component list, then run the
per-component uninstall loop over it. -/
def uninstallComponents (env : Env) (repoFS : Repo) (components : List Component)
    (nodemetadata : NodeMetadata) (st : VFile) : List Event × VFile × Option String :=
  uninstallLoop env repoFS nodemetadata st components.reverse

/-- The per-component loop of `installComponents`: a component is skipped
when its Version Store entry already equals the expanded target; otherwise
its recipe block is selected by the trimmed expanded target version and its
`install` groups are processed with `processComponentMetada` under the
expanded target version. -/
def installLoop (env : Env) (repoFS : Repo) (nodemetadata : NodeMetadata) (st : VFile) :
    List Component → List Event × VFile × Option String
  | [] => ([], st, none)
  | component :: rest =>
      let installedVersion := GetComponentVersion st component.Name
      let expectedVersion := expandVersion component.Version nodemetadata.PoolVersion
      if installedVersion = expectedVersion then
        installLoop env repoFS nodemetadata st rest
      else
        match componentMetada repoFS component.Name expectedVersion with
        | .error err => ([], st, some err)
        | .ok sections =>
            let (t, st', e) :=
              processComponentMetada env component.Name expectedVersion sections.Install st
            match e with
            | some err => (t, st', some err)
            | none =>
                let (t2, st2, e2) := installLoop env repoFS nodemetadata st' rest
                (t ++ t2, st2, e2)

/-- Go `installComponents`: the install loop over the component list in
manifest order. -/
def installComponents (env : Env) (repoFS : Repo) (components : List Component)
    (nodemetadata : NodeMetadata) (st : VFile) : List Event × VFile × Option String :=
  installLoop env repoFS nodemetadata st components

/-- The uninstall pass followed by the install pass, each aborting the run
on error (the body of `processComponents` after resolving the component
list). -/
def runEngine (env : Env) (repoFS : Repo) (components : List Component)
    (nodemetadata : NodeMetadata) (st : VFile) : List Event × VFile × Option String :=
  let (t1, st1, e1) := uninstallComponents env repoFS components nodemetadata st
  match e1 with
  | some err => (t1, st1, some err)
  | none =>
      let (t2, st2, e2) := installComponents env repoFS components nodemetadata st1
      (t1 ++ t2, st2, e2)

/-- Go `processComponents`: resolve the release component list for the node's
pool version and tags, then run the uninstall and install passes.
(Opening and cleaning up the repository filesystem carry no resource
applications and are outside the model.) -/
def processComponents (env : Env) (repoFS : Repo) (releases : Releases)
    (nodemetadata : NodeMetadata) (st : VFile) : List Event × VFile × Option String :=
  match releaseComponents releases nodemetadata with
  | .error err => ([], st, some err)
  | .ok components => runEngine env repoFS components nodemetadata st

/-! Section: Node reconciliation controller (syncHandler / upgradeNode, helpers.go)

The node object is reduced to its annotations; the network fetches
(`getNodeUserData`, `getNodeMetadata`), the component run and the node
update are abstracted by outcome oracles, while the observable steps the
handler takes are recorded as `CtrlEvent`s. `syncVersionsAnnotations` is
kept opaque: the model records that it ran and whether it failed. -/

structure KNode where
  annotations : List (String × String)
deriving DecidableEq, Repr

inductive CtrlEvent where
  | eventStarting
  | reinstall
  | clearTrigger
  | annotationsSync
deriving DecidableEq, Repr

/-- The upgrade-trigger annotation key checked by `upgradeNode`. -/
def agentAnnotation : String := "k8s.scaleway.com/agent"

/-- Go `upgradeNode`: return at once when the `k8s.scaleway.com/agent`
annotation is absent or differs from `"upgrade"`. Otherwise emit the
"Node upgrading" event, fetch credentials and node metadata, run
`processComponents` (the `reinstall` event), and on success delete the
annotation and update the node; every failure aborts with an error, leaving
the cluster node unchanged. -/
def upgradeNode (node : KNode) (userDataOK metadataOK : Bool)
    (installErr : Option String) (updateOK : Bool) :
    List CtrlEvent × KNode × Option String :=
  match node.annotations.lookup agentAnnotation with
  | none => ([], node, none)
  | some value =>
      if value = "upgrade" then
        if userDataOK then
          if metadataOK then
            match installErr with
            | some err =>
                ([.eventStarting, .reinstall], node,
                  some ("failed to install components: " ++ err))
            | none =>
                let nodeCopy : KNode :=
                  ⟨node.annotations.filter (fun p => p.1 ≠ agentAnnotation)⟩
                if updateOK then
                  ([.eventStarting, .reinstall, .clearTrigger], nodeCopy, none)
                else
                  ([.eventStarting, .reinstall], node, some "failed to remove annotation")
          else ([.eventStarting], node, some "failed to get node metadata")
        else ([.eventStarting], node, some "failed to get credentials")
      else ([], node, none)

/-- Go `syncHandler`: run `upgradeNode`, abort on its error, then
unconditionally run `syncVersionsAnnotations` (recorded as the
`annotationsSync` event, with its own outcome oracle). -/
def syncHandler (node : KNode) (userDataOK metadataOK : Bool)
    (installErr : Option String) (updateOK : Bool) (syncErr : Option String) :
    List CtrlEvent × KNode × Option String :=
  let (t, node', e) := upgradeNode node userDataOK metadataOK installErr updateOK
  match e with
  | some err => (t, node', some err)
  | none => (t ++ [.annotationsSync], node', syncErr)

/-! Section: Spec-side definitions for refinement claims

The following definitions follow the spec's words (not the source) and are
compared with the source-derived definitions above. -/

/-- Written from the spec's words: the uninstall loop as the spec describes
it, applying a non-skipped component's `uninstall` groups *against the
currently installed version* (that version is the one handed to
`processComponentMetada`, hence to path templating). Everything else is as
in `uninstallLoop`. -/
def uninstallLoopClaimed (env : Env) (repoFS : Repo) (nodemetadata : NodeMetadata) (st : VFile) :
    List Component → List Event × VFile × Option String
  | [] => ([], st, none)
  | component :: rest =>
      let installedVersion := GetComponentVersion st component.Name
      let expectedVersion := expandVersion component.Version nodemetadata.PoolVersion
      if installedVersion = "" ∨ installedVersion = expectedVersion then
        uninstallLoopClaimed env repoFS nodemetadata st rest
      else
        match componentMetada repoFS component.Name installedVersion with
        | .error err => ([], st, some err)
        | .ok sections =>
            let (t, st', e) :=
              processComponentMetada env component.Name installedVersion sections.Uninstall st
            match e with
            | some err => (t, st', some err)
            | none =>
                let (t2, st2, e2) := uninstallLoopClaimed env repoFS nodemetadata st' rest
                (t ++ t2, st2, e2)

/-- Written from the spec's words: the uninstall pass applying each
component's uninstall groups against the currently installed version. -/
def uninstallComponentsClaimed (env : Env) (repoFS : Repo) (components : List Component)
    (nodemetadata : NodeMetadata) (st : VFile) : List Event × VFile × Option String :=
  uninstallLoopClaimed env repoFS nodemetadata st components.reverse

/-- Written from the claim's words for the service batch: per entry, step
(a) enables or disables the unit, a disable failure whose cause is "unit
unknown" being *treated as success*, after which step (b) still drives the
unit to its target state. -/
def servicesLoopClaimed (σ : SysOp → CmdResult) :
    List ComponentService → List SysOp × Option String
  | [] => ([], none)
  | service :: rest =>
      let op := if service.Enabled then SysOp.enable service.Name
                else SysOp.disable service.Name
      let stepA : Option String :=
        match σ op with
        | .ok => none
        | .exitErr 1 =>
            if service.Enabled then some ("failed to enable service " ++ service.Name)
            else none
        | _ =>
            if service.Enabled then some ("failed to enable service " ++ service.Name)
            else some ("failed to disable service " ++ service.Name)
      match stepA with
      | some err => ([op], some err)
      | none =>
          let (t1, e1) := serviceStateStep σ service
          match e1 with
          | some err => (op :: t1, some err)
          | none =>
              let (t2, e2) := servicesLoopClaimed σ rest
              (op :: (t1 ++ t2), e2)

/-- Written from the claim's words: one global configuration reload first,
then the per-entry loop in which a "unit unknown" disable failure is
treated as success and step (b) still runs. -/
def processComponentServicesClaimed (σ : SysOp → CmdResult)
    (services : List ComponentService) : List SysOp × Option String :=
  match σ .daemonReload with
  | .ok =>
      let (t, e) := servicesLoopClaimed σ services
      (.daemonReload :: t, e)
  | _ => ([.daemonReload], some "failed to daemon-reload")

/-- Outcome of the enable/disable step of one service entry, as the amended
claim describes it. -/
inductive ToggleOutcome where
  | proceed
  | skipRest
  | abort (err : String)
deriving DecidableEq, Repr

/-- Written from the amended claim's words: step (a) of one entry. Enabling
aborts on any failure; disabling aborts on any failure except one whose
cause is "unit unknown" (exit code 1), which skips the rest of the entry. -/
def serviceToggleSpec (σ : SysOp → CmdResult) (service : ComponentService) :
    SysOp × ToggleOutcome :=
  if service.Enabled then
    (.enable service.Name,
      match σ (.enable service.Name) with
      | .ok => .proceed
      | _ => .abort ("failed to enable service " ++ service.Name))
  else
    (.disable service.Name,
      match σ (.disable service.Name) with
      | .ok => .proceed
      | .exitErr 1 => .skipRest
      | _ => .abort ("failed to disable service " ++ service.Name))

/-- Written from the amended claim's words: the per-entry loop. Step (a)
runs first; on `skipRest` the entry is finished without a start/stop
attempt; on `proceed` step (b) drives the unit to its target state (a
"unit unknown" stop failure treated as success); any abort stops the
batch. -/
def servicesSpecLoop (σ : SysOp → CmdResult) :
    List ComponentService → List SysOp × Option String
  | [] => ([], none)
  | service :: rest =>
      match serviceToggleSpec σ service with
      | (op, .abort err) => ([op], some err)
      | (op, .skipRest) =>
          let (t2, e2) := servicesSpecLoop σ rest
          (op :: t2, e2)
      | (op, .proceed) =>
          let (t1, e1) := serviceStateStep σ service
          match e1 with
          | some err => (op :: t1, some err)
          | none =>
              let (t2, e2) := servicesSpecLoop σ rest
              (op :: (t1 ++ t2), e2)

/-- Written from the amended claim's words: one global configuration reload
per batch, then the per-entry loop of `servicesSpecLoop`. -/
def processComponentServicesAmendedSpec (σ : SysOp → CmdResult)
    (services : List ComponentService) : List SysOp × Option String :=
  match σ .daemonReload with
  | .ok =>
      let (t, e) := servicesSpecLoop σ services
      (.daemonReload :: t, e)
  | _ => ([.daemonReload], some "failed to daemon-reload")

/-! Section: Helper lemmas about the version store -/

theorem storeSet_lookup_self (m : StoreMap) (k v : String) :
    (storeSet m k v).lookup k = some v := by
  induction m with
  | nil => simp [storeSet, List.lookup]
  | cons p rest ih =>
      obtain ⟨k', v'⟩ := p
      by_cases h : k' = k
      · simp [storeSet, h, List.lookup]
      · have hk : (k == k') = false := beq_eq_false_iff_ne.mpr (Ne.symm h)
        simp [storeSet, h, List.lookup, hk, ih]

theorem storeSet_lookup_other (m : StoreMap) (k v y : String) (h : y ≠ k) :
    (storeSet m k v).lookup y = m.lookup y := by
  have hyk : (y == k) = false := beq_eq_false_iff_ne.mpr h
  induction m with
  | nil => simp [storeSet, List.lookup, hyk]
  | cons p rest ih =>
      obtain ⟨k', v'⟩ := p
      by_cases hk : k' = k
      · subst hk
        simp [storeSet, List.lookup, hyk]
      · cases hy : (y == k') <;> simp [storeSet, hk, List.lookup, hy, ih]

theorem get_set_same (f : VFile) (k v : String) :
    GetComponentVersion (SetComponentVersion f k v) k = v := by
  simp [GetComponentVersion, SetComponentVersion, storeSet_lookup_self]

theorem get_set_other (f : VFile) (k v y : String) (h : y ≠ k) :
    GetComponentVersion (SetComponentVersion f k v) y = GetComponentVersion f y := by
  simp [GetComponentVersion, SetComponentVersion, storeSet_lookup_other _ _ _ _ h]

/-! Section: Claim C8 — Version Store set/get and frame behaviour -/

/-- C8: after `Set(x, v)` the store yields `v` for `x`; any other key `y`
reads exactly as before the `Set`; and a missing store file behaves as the
empty store, both for reads and as the base of a write. -/
theorem version_store_set_get_frame (f : VFile) (x v y : String) (h : y ≠ x) :
    GetComponentVersion (SetComponentVersion f x v) x = v
    ∧ GetComponentVersion (SetComponentVersion f x v) y = GetComponentVersion f y
    ∧ GetComponentVersion none y = ""
    ∧ SetComponentVersion none x v = SetComponentVersion (some []) x v := by
  refine ⟨get_set_same f x v, get_set_other f x v y h, ?_, ?_⟩
  · simp [GetComponentVersion, List.lookup]
  · simp [SetComponentVersion]

/-- C8 witness: a concrete set of `kubelet` in a store holding `cni` leaves
the `cni` entry intact and yields the new `kubelet` version. -/
theorem version_store_set_get_frame_witness :
    GetComponentVersion (SetComponentVersion (some [("cni", "1.2.0")]) "kubelet" "1.30~2") "kubelet"
      = "1.30~2"
    ∧ GetComponentVersion (SetComponentVersion (some [("cni", "1.2.0")]) "kubelet" "1.30~2") "cni"
      = GetComponentVersion (some [("cni", "1.2.0")]) "cni" := by
  have h := version_store_set_get_frame (some [("cni", "1.2.0")]) "kubelet" "1.30~2" "cni"
    (by decide)
  exact ⟨h.1, h.2.1⟩

/-! Section: Claim C6 — release catalog resolution and tag filtering -/

theorem filterByTags_eq_filter (tags : List String) (l : List Component) :
    filterByTags tags l = l.filter (fun c => decide (∃ t ∈ tags, t ∈ c.Tags)) := by
  induction l with
  | nil => simp [filterByTags]
  | cons c rest ih =>
      by_cases h : ∃ t ∈ tags, t ∈ c.Tags
      · have hb : tags.any (fun t => c.Tags.contains t) = true := by
          rcases h with ⟨t, ht, htc⟩
          simp [List.any_eq_true]
          exact ⟨t, ht, htc⟩
        simp [filterByTags, hb, List.filter_cons, h, ih]
      · have hb : tags.any (fun t => c.Tags.contains t) = false := by
          rw [Bool.eq_false_iff]
          intro hc
          rw [List.any_eq_true] at hc
          rcases hc with ⟨t, ht, htc⟩
          exact h ⟨t, ht, by simpa using htc⟩
        simp [filterByTags, hb, List.filter_cons, h, ih]

/-- C6: when the manifest has an entry for the cluster (pool) version, an
empty installer tag set returns the entry unfiltered, and a non-empty tag
set returns exactly the components sharing at least one tag, in manifest
order (a `List.filter`); a missing entry is an error with no component
list. -/
theorem release_components_filtering (releases : Releases) (nodemetadata : NodeMetadata) :
    (∀ comps, releases.lookup nodemetadata.PoolVersion = some comps →
      releaseComponents releases nodemetadata =
        .ok (if nodemetadata.InstallerTags = [] then comps
             else comps.filter (fun c => decide (∃ t ∈ nodemetadata.InstallerTags, t ∈ c.Tags))))
    ∧ (releases.lookup nodemetadata.PoolVersion = none →
        ∃ e, releaseComponents releases nodemetadata = .error e) := by
  constructor
  · intro comps h
    by_cases ht : nodemetadata.InstallerTags = []
    · simp [releaseComponents, h, ht]
    · simp [releaseComponents, h, ht, filterByTags_eq_filter]
  · intro h
    exact ⟨"release " ++ nodemetadata.PoolVersion ++ " not found",
      by simp [releaseComponents, h]⟩

/-- C6 witness: the spec's sample manifest resolved with an empty tag set,
with a selective tag set, and at a missing cluster version. -/
theorem release_components_filtering_witness :
    releaseComponents
        [("1.30", [⟨"cni", "1.2.0", ["kapsule"]⟩, ⟨"kubelet", "~2", ["kosmos"]⟩])]
        ⟨"1.30", []⟩
      = .ok [⟨"cni", "1.2.0", ["kapsule"]⟩, ⟨"kubelet", "~2", ["kosmos"]⟩]
    ∧ releaseComponents
        [("1.30", [⟨"cni", "1.2.0", ["kapsule"]⟩, ⟨"kubelet", "~2", ["kosmos"]⟩])]
        ⟨"1.30", ["kosmos"]⟩
      = .ok [⟨"kubelet", "~2", ["kosmos"]⟩]
    ∧ ∃ e, releaseComponents
        [("1.30", [⟨"cni", "1.2.0", ["kapsule"]⟩, ⟨"kubelet", "~2", ["kosmos"]⟩])]
        ⟨"1.29", []⟩
      = .error e := by
  refine ⟨?_, ?_, ?_⟩
  · have h := (release_components_filtering
      [("1.30", [⟨"cni", "1.2.0", ["kapsule"]⟩, ⟨"kubelet", "~2", ["kosmos"]⟩])]
      ⟨"1.30", []⟩).1 [⟨"cni", "1.2.0", ["kapsule"]⟩, ⟨"kubelet", "~2", ["kosmos"]⟩] (by decide)
    simpa using h
  · have h := (release_components_filtering
      [("1.30", [⟨"cni", "1.2.0", ["kapsule"]⟩, ⟨"kubelet", "~2", ["kosmos"]⟩])]
      ⟨"1.30", ["kosmos"]⟩).1 [⟨"cni", "1.2.0", ["kapsule"]⟩, ⟨"kubelet", "~2", ["kosmos"]⟩]
      (by decide)
    rw [h]
    rfl
  · exact (release_components_filtering
      [("1.30", [⟨"cni", "1.2.0", ["kapsule"]⟩, ⟨"kubelet", "~2", ["kosmos"]⟩])]
      ⟨"1.29", []⟩).2 (by decide)

/-! Section: Claim C10 — unknown file states are silently ignored -/

/-- C10: a file entry whose state is none of `file`, `template`, `directory`
or `absent` contributes no file action and no error — once its source and
destination paths have been templated, processing simply continues with the
remaining entries as if the entry were not there. -/
theorem unknown_file_state_ignored (tp : String → String → Except String String)
    (φ : FileAction → Bool) (name version : String) (f : ComponentFile)
    (rest : List ComponentFile) (s d : String)
    (h1 : f.State ∉ (["file", "template", "directory", "absent"] : List String))
    (h2 : templateComponentPath tp f.Src version = .ok s)
    (h3 : templateComponentPath tp f.Dst version = .ok d) :
    processComponentFiles tp φ name version (f :: rest)
      = processComponentFiles tp φ name version rest := by
  simp only [List.mem_cons, List.mem_singleton, not_or] at h1
  obtain ⟨hf, ht, hd, ha, _⟩ := h1
  simp only [processComponentFiles, h2, h3]

/-- C10 witness: a concrete entry with state `"link"` is skipped without an
action or error. -/
theorem unknown_file_state_ignored_witness :
    processComponentFiles (fun p _ => .ok p) (fun _ => true) "cni" "1.2.0"
        [⟨"link", "a", "b", "0644", "root", "root"⟩]
      = ([], none) := by
  have h := unknown_file_state_ignored (fun p _ => .ok p) (fun _ => true) "cni" "1.2.0"
    ⟨"link", "a", "b", "0644", "root", "root"⟩ [] "a" "b" (by decide) rfl rfl
  rw [h]
  rfl

/-! Section: Claim C4 — service batch processing -/

theorem servicesLoop_eq_spec (σ : SysOp → CmdResult) (l : List ComponentService) :
    servicesLoop σ l = servicesSpecLoop σ l := by
  induction l with
  | nil => rfl
  | cons service rest ih =>
      by_cases hEn : service.Enabled
      · simp only [servicesLoop, servicesSpecLoop, serviceToggleSpec, hEn, if_true]
        cases hr : σ (.enable service.Name) <;> simp [hr, ih]
      · simp only [servicesLoop, servicesSpecLoop, serviceToggleSpec, hEn,
          Bool.false_eq_true, if_false]
        cases hr : σ (.disable service.Name) with
        | ok => simp [hr, ih]
        | failed => simp [hr]
        | exitErr code =>
            by_cases hc : code = 1
            · subst hc
              simp [hr, ih]
            · simp [hr, hc, ih]

/-- C4 counterexample: one disabled service whose `systemctl disable` fails
with exit code 1 ("unit unknown"). The code skips the start/stop step for
that entry and succeeds; the claim's reading, in which the disable failure
is treated as success and step (b) still runs, attempts the start, so the
two runs differ — in particular no `start` is ever invoked. -/
theorem services_disable_unknown_cex :
    processComponentServices
        (fun o => match o with | .disable _ => .exitErr 1 | _ => .ok)
        [⟨"started", "u", false⟩]
      ≠ processComponentServicesClaimed
        (fun o => match o with | .disable _ => .exitErr 1 | _ => .ok)
        [⟨"started", "u", false⟩]
    ∧ processComponentServices
        (fun o => match o with | .disable _ => .exitErr 1 | _ => .ok)
        [⟨"started", "u", false⟩]
      = ([.daemonReload, .disable "u"], none)
    ∧ SysOp.start "u" ∈ (processComponentServicesClaimed
        (fun o => match o with | .disable _ => .exitErr 1 | _ => .ok)
        [⟨"started", "u", false⟩]).1 := by
  refine ⟨?_, rfl, ?_⟩
  · decide
  · decide

/-- C4 (amended): each batch performs one global configuration reload
first; then per entry, step (a) enables or disables the unit, where a
disable failure whose cause is "unit unknown" (exit code 1) is treated as
success but skips step (b) for that entry; otherwise step (b) drives the
unit to started or stopped, where a stop failure whose cause is "unit
unknown" (exit code 5) is treated as success; any other failure aborts the
run with an error. -/
theorem services_batch_amended_equiv (σ : SysOp → CmdResult)
    (services : List ComponentService) :
    processComponentServices σ services = processComponentServicesAmendedSpec σ services := by
  unfold processComponentServices processComponentServicesAmendedSpec
  rw [servicesLoop_eq_spec]

/-! Section: Helper lemmas about resource-group processing -/

theorem processComponentMetada_of_ok (env : Env) (name version : String)
    (resources : List ComponentResources) (st : VFile)
    (h : (processResources env name version resources).2 = none) :
    processComponentMetada env name version resources st
      = ((processResources env name version resources).1 ++ [.setVer name version],
         SetComponentVersion st name version, none) := by
  unfold processComponentMetada
  rcases hr : processResources env name version resources with ⟨t, e⟩
  rw [hr] at h
  simp only at h
  subst h
  simp

theorem processComponentMetada_of_err (env : Env) (name version : String)
    (resources : List ComponentResources) (st : VFile) (err : String)
    (h : (processResources env name version resources).2 = some err) :
    processComponentMetada env name version resources st
      = ((processResources env name version resources).1, st, some err) := by
  unfold processComponentMetada
  rcases hr : processResources env name version resources with ⟨t, e⟩
  rw [hr] at h
  simp only at h
  subst h
  simp

theorem mem_processOneResource_not_setVer (env : Env) (name version : String)
    (r : ComponentResources) (e : Event)
    (he : e ∈ (processOneResource env name version r).1) : e.isSetVer = false := by
  unfold processOneResource at he
  rcases hf : processComponentFiles env.tp env.fileRes name version r.Files with ⟨ft, fe⟩
  rw [hf] at he
  cases fe with
  | some err =>
      simp only at he
      rcases List.mem_map.mp he with ⟨a, _, rfl⟩
      rfl
  | none =>
      simp only at he
      rcases hs : processComponentServices env.sys r.Services with ⟨st, se⟩
      rw [hs] at he
      cases se with
      | some err =>
          simp only at he
          rcases List.mem_append.mp he with h | h <;>
            · rcases List.mem_map.mp h with ⟨a, _, rfl⟩
              rfl
      | none =>
          simp only at he
          rcases hc : processComponentScripts env.script r.Scripts with ⟨ct, ce⟩
          rw [hc] at he
          simp only at he
          rcases List.mem_append.mp he with h | h
          · rcases List.mem_append.mp h with h' | h' <;>
              · rcases List.mem_map.mp h' with ⟨a, _, rfl⟩
                rfl
          · rcases List.mem_map.mp h with ⟨a, _, rfl⟩
            rfl

theorem mem_processResources_not_setVer (env : Env) (name version : String)
    (resources : List ComponentResources) (e : Event)
    (he : e ∈ (processResources env name version resources).1) : e.isSetVer = false := by
  induction resources with
  | nil => simp [processResources] at he
  | cons r rest ih =>
      unfold processResources at he
      rcases h1 : processOneResource env name version r with ⟨t, er⟩
      rw [h1] at he
      cases er with
      | some err =>
          simp only at he
          exact mem_processOneResource_not_setVer env name version r e (by rw [h1]; exact he)
      | none =>
          simp only at he
          rcases h2 : processResources env name version rest with ⟨t2, e2⟩
          rw [h2] at he
          simp only at he
          rcases List.mem_append.mp he with h | h
          · exact mem_processOneResource_not_setVer env name version r e (by rw [h1]; exact h)
          · exact ih (by rw [h2]; exact h)

theorem processResources_filter_setVer (env : Env) (name version : String)
    (resources : List ComponentResources) :
    (processResources env name version resources).1.filter Event.isSetVer = [] := by
  rw [List.filter_eq_nil_iff]
  intro e he
  rw [mem_processResources_not_setVer env name version resources e he]
  exact Bool.false_ne_true

/-! Section: Helper step lemmas for the engine loops -/

theorem uninstallLoop_cons_skip (env : Env) (repoFS : Repo) (nodemetadata : NodeMetadata)
    (st : VFile) (c : Component) (rest : List Component)
    (h : GetComponentVersion st c.Name = ""
      ∨ GetComponentVersion st c.Name = expandVersion c.Version nodemetadata.PoolVersion) :
    uninstallLoop env repoFS nodemetadata st (c :: rest)
      = uninstallLoop env repoFS nodemetadata st rest := by
  simp only [uninstallLoop, h, if_pos]

theorem uninstallLoop_cons_proc (env : Env) (repoFS : Repo) (nodemetadata : NodeMetadata)
    (st : VFile) (c : Component) (rest : List Component) (sections : ComponentSections)
    (h1 : GetComponentVersion st c.Name ≠ "")
    (h2 : GetComponentVersion st c.Name ≠ expandVersion c.Version nodemetadata.PoolVersion)
    (h3 : componentMetada repoFS c.Name (GetComponentVersion st c.Name) = .ok sections) :
    uninstallLoop env repoFS nodemetadata st (c :: rest)
      = (let (t, st', e) := processComponentMetada env c.Name "uninstalled" sections.Uninstall st
         match e with
         | some err => (t, st', some err)
         | none =>
             let (t2, st2, e2) := uninstallLoop env repoFS nodemetadata st' rest
             (t ++ t2, st2, e2)) := by
  have hcond : ¬(GetComponentVersion st c.Name = ""
      ∨ GetComponentVersion st c.Name = expandVersion c.Version nodemetadata.PoolVersion) :=
    not_or.mpr ⟨h1, h2⟩
  simp only [uninstallLoop, hcond, if_neg, not_false_iff, h3]

theorem installLoop_cons_skip (env : Env) (repoFS : Repo) (nodemetadata : NodeMetadata)
    (st : VFile) (c : Component) (rest : List Component)
    (h : GetComponentVersion st c.Name = expandVersion c.Version nodemetadata.PoolVersion) :
    installLoop env repoFS nodemetadata st (c :: rest)
      = installLoop env repoFS nodemetadata st rest := by
  simp only [installLoop, h, if_pos]

theorem installLoop_cons_proc (env : Env) (repoFS : Repo) (nodemetadata : NodeMetadata)
    (st : VFile) (c : Component) (rest : List Component) (sections : ComponentSections)
    (h1 : GetComponentVersion st c.Name ≠ expandVersion c.Version nodemetadata.PoolVersion)
    (h2 : componentMetada repoFS c.Name (expandVersion c.Version nodemetadata.PoolVersion)
      = .ok sections) :
    installLoop env repoFS nodemetadata st (c :: rest)
      = (let (t, st', e) := processComponentMetada env c.Name
           (expandVersion c.Version nodemetadata.PoolVersion) sections.Install st
         match e with
         | some err => (t, st', some err)
         | none =>
             let (t2, st2, e2) := installLoop env repoFS nodemetadata st' rest
             (t ++ t2, st2, e2)) := by
  simp only [installLoop, h1, if_neg, not_false_iff, h2]

theorem installLoop_cons_lookup_err (env : Env) (repoFS : Repo) (nodemetadata : NodeMetadata)
    (st : VFile) (c : Component) (rest : List Component) (err : String)
    (h1 : GetComponentVersion st c.Name ≠ expandVersion c.Version nodemetadata.PoolVersion)
    (h2 : componentMetada repoFS c.Name (expandVersion c.Version nodemetadata.PoolVersion)
      = .error err) :
    installLoop env repoFS nodemetadata st (c :: rest) = ([], st, some err) := by
  simp only [installLoop, h1, if_neg, not_false_iff, h2]

theorem uninstallLoop_cons_lookup_err (env : Env) (repoFS : Repo)
    (nodemetadata : NodeMetadata) (st : VFile) (c : Component) (rest : List Component)
    (err : String)
    (h1 : GetComponentVersion st c.Name ≠ "")
    (h2 : GetComponentVersion st c.Name ≠ expandVersion c.Version nodemetadata.PoolVersion)
    (h3 : componentMetada repoFS c.Name (GetComponentVersion st c.Name) = .error err) :
    uninstallLoop env repoFS nodemetadata st (c :: rest) = ([], st, some err) := by
  have hcond : ¬(GetComponentVersion st c.Name = ""
      ∨ GetComponentVersion st c.Name = expandVersion c.Version nodemetadata.PoolVersion) :=
    not_or.mpr ⟨h1, h2⟩
  simp only [uninstallLoop, hcond, if_neg, not_false_iff, h3]

theorem uninstallLoop_cons_ok (env : Env) (repoFS : Repo) (nodemetadata : NodeMetadata)
    (st : VFile) (c : Component) (rest : List Component) (sections : ComponentSections)
    (h1 : GetComponentVersion st c.Name ≠ "")
    (h2 : GetComponentVersion st c.Name ≠ expandVersion c.Version nodemetadata.PoolVersion)
    (h3 : componentMetada repoFS c.Name (GetComponentVersion st c.Name) = .ok sections)
    (hr : (processResources env c.Name "uninstalled" sections.Uninstall).2 = none) :
    uninstallLoop env repoFS nodemetadata st (c :: rest)
      = (((processResources env c.Name "uninstalled" sections.Uninstall).1
            ++ [Event.setVer c.Name "uninstalled"])
          ++ (uninstallLoop env repoFS nodemetadata
                (SetComponentVersion st c.Name "uninstalled") rest).1,
         (uninstallLoop env repoFS nodemetadata
            (SetComponentVersion st c.Name "uninstalled") rest).2.1,
         (uninstallLoop env repoFS nodemetadata
            (SetComponentVersion st c.Name "uninstalled") rest).2.2) := by
  rw [uninstallLoop_cons_proc env repoFS nodemetadata st c rest sections h1 h2 h3,
    processComponentMetada_of_ok env c.Name "uninstalled" sections.Uninstall st hr]

theorem uninstallLoop_cons_fail (env : Env) (repoFS : Repo) (nodemetadata : NodeMetadata)
    (st : VFile) (c : Component) (rest : List Component) (sections : ComponentSections)
    (err : String)
    (h1 : GetComponentVersion st c.Name ≠ "")
    (h2 : GetComponentVersion st c.Name ≠ expandVersion c.Version nodemetadata.PoolVersion)
    (h3 : componentMetada repoFS c.Name (GetComponentVersion st c.Name) = .ok sections)
    (hr : (processResources env c.Name "uninstalled" sections.Uninstall).2 = some err) :
    uninstallLoop env repoFS nodemetadata st (c :: rest)
      = ((processResources env c.Name "uninstalled" sections.Uninstall).1, st, some err) := by
  rw [uninstallLoop_cons_proc env repoFS nodemetadata st c rest sections h1 h2 h3,
    processComponentMetada_of_err env c.Name "uninstalled" sections.Uninstall st err hr]

theorem installLoop_cons_ok (env : Env) (repoFS : Repo) (nodemetadata : NodeMetadata)
    (st : VFile) (c : Component) (rest : List Component) (sections : ComponentSections)
    (h1 : GetComponentVersion st c.Name ≠ expandVersion c.Version nodemetadata.PoolVersion)
    (h2 : componentMetada repoFS c.Name (expandVersion c.Version nodemetadata.PoolVersion)
      = .ok sections)
    (hr : (processResources env c.Name
        (expandVersion c.Version nodemetadata.PoolVersion) sections.Install).2 = none) :
    installLoop env repoFS nodemetadata st (c :: rest)
      = (((processResources env c.Name
            (expandVersion c.Version nodemetadata.PoolVersion) sections.Install).1
            ++ [Event.setVer c.Name (expandVersion c.Version nodemetadata.PoolVersion)])
          ++ (installLoop env repoFS nodemetadata
                (SetComponentVersion st c.Name
                  (expandVersion c.Version nodemetadata.PoolVersion)) rest).1,
         (installLoop env repoFS nodemetadata
            (SetComponentVersion st c.Name
              (expandVersion c.Version nodemetadata.PoolVersion)) rest).2.1,
         (installLoop env repoFS nodemetadata
            (SetComponentVersion st c.Name
              (expandVersion c.Version nodemetadata.PoolVersion)) rest).2.2) := by
  rw [installLoop_cons_proc env repoFS nodemetadata st c rest sections h1 h2,
    processComponentMetada_of_ok env c.Name
      (expandVersion c.Version nodemetadata.PoolVersion) sections.Install st hr]

theorem installLoop_cons_fail (env : Env) (repoFS : Repo) (nodemetadata : NodeMetadata)
    (st : VFile) (c : Component) (rest : List Component) (sections : ComponentSections)
    (err : String)
    (h1 : GetComponentVersion st c.Name ≠ expandVersion c.Version nodemetadata.PoolVersion)
    (h2 : componentMetada repoFS c.Name (expandVersion c.Version nodemetadata.PoolVersion)
      = .ok sections)
    (hr : (processResources env c.Name
        (expandVersion c.Version nodemetadata.PoolVersion) sections.Install).2 = some err) :
    installLoop env repoFS nodemetadata st (c :: rest)
      = ((processResources env c.Name
            (expandVersion c.Version nodemetadata.PoolVersion) sections.Install).1,
         st, some err) := by
  rw [installLoop_cons_proc env repoFS nodemetadata st c rest sections h1 h2,
    processComponentMetada_of_err env c.Name
      (expandVersion c.Version nodemetadata.PoolVersion) sections.Install st err hr]

/-! Section: Concrete inputs used by counterexamples and witnesses -/

/-- All-succeeding collaborator oracles; path templating returns the path
unchanged. -/
def okEnv : Env := ⟨fun p _ => .ok p, fun _ => true, fun _ => .ok, fun _ => true⟩

/-- All-succeeding collaborator oracles whose path templating appends the
`Version` context value to the path, making the version used for templating
observable in the trace. -/
def concatEnv : Env := ⟨fun p v => .ok (p ++ v), fun _ => true, fun _ => .ok, fun _ => true⟩

/-- Oracles whose file primitives always fail. -/
def failEnv : Env := ⟨fun p _ => .ok p, fun _ => false, fun _ => .ok, fun _ => true⟩

/-- Repository with one component `A` whose recipe blocks `1` and `2` are
empty. -/
def repoA : Repo := fun n =>
  if n = "A" then some [("1", ⟨[], []⟩), ("2", ⟨[], []⟩)] else none

/-- Repository with one component `A` whose recipe block `1` removes the
path `d` (after templating) on uninstall. -/
def repoU : Repo := fun n =>
  if n = "A" then
    some [("1", ⟨[], [⟨[⟨"absent", "", "d", "", "", ""⟩], [], []⟩]⟩), ("2", ⟨[], []⟩)]
  else none

/-- Repository with one component `B` whose recipe block `2` removes the
path `d` on install. -/
def repoB : Repo := fun n =>
  if n = "B" then some [("2", ⟨[⟨[⟨"absent", "", "d", "", "", ""⟩], [], []⟩], []⟩)] else none

/-- The release manifest of the specification's sample scenario: cluster
version `1.30` with `cni@1.2.0` and `kubelet@~2`. -/
def scenarioReleases : Releases :=
  [("1.30", [⟨"cni", "1.2.0", []⟩, ⟨"kubelet", "~2", []⟩])]

/-- Repository for the sample scenario: empty recipe blocks for `cni` at
`1.2.0` and `kubelet` at base version `1.30`. -/
def scenarioRepo : Repo := fun n =>
  if n = "cni" then some [("1.2.0", ⟨[], []⟩)]
  else if n = "kubelet" then some [("1.30", ⟨[], []⟩)]
  else none

/-! Section: Claim C1 — Version Store writes during the uninstall pass -/

/-- C1 counterexample: a single component `A` moving from stored version
`1` to target `2`, with an empty uninstall recipe. The uninstall pass
changes the Version Store (it records `uninstalled` for `A`), so the pass
does perform a Version Store write, contradicting the claim. -/
theorem uninstall_writes_store_cex :
    (uninstallComponents okEnv repoA [⟨"A", "2", []⟩] ⟨"p", []⟩ (some [("A", "1")])).2.1
      ≠ some [("A", "1")]
    ∧ Event.setVer "A" "uninstalled"
      ∈ (uninstallComponents okEnv repoA [⟨"A", "2", []⟩] ⟨"p", []⟩ (some [("A", "1")])).1
    ∧ (uninstallComponents okEnv repoA [⟨"A", "2", []⟩] ⟨"p", []⟩ (some [("A", "1")])).2.1
      = some [("A", "uninstalled")] := by
  refine ⟨?_, ?_, ?_⟩ <;> decide

/-- C1 (amended): the install pass records the real new version; the
uninstall pass also writes the Version Store, but every write it performs
records the fixed sentinel version string `uninstalled` (after that
component's uninstall groups succeeded), never any other value. -/
theorem uninstall_setVer_only_sentinel (env : Env) (repoFS : Repo)
    (components : List Component) (nodemetadata : NodeMetadata) (st : VFile)
    (n v : String)
    (h : Event.setVer n v
      ∈ (uninstallComponents env repoFS components nodemetadata st).1) :
    v = "uninstalled" := by
  unfold uninstallComponents at h
  revert h
  generalize components.reverse = l
  induction l generalizing st with
  | nil => intro h; simp [uninstallLoop] at h
  | cons c rest ih =>
      intro h
      by_cases hskip : GetComponentVersion st c.Name = ""
          ∨ GetComponentVersion st c.Name = expandVersion c.Version nodemetadata.PoolVersion
      · rw [uninstallLoop_cons_skip env repoFS nodemetadata st c rest hskip] at h
        exact ih st h
      · obtain ⟨h1, h2⟩ := not_or.mp hskip
        cases h3 : componentMetada repoFS c.Name (GetComponentVersion st c.Name) with
        | error err =>
            rw [uninstallLoop_cons_lookup_err env repoFS nodemetadata st c rest err
              h1 h2 h3] at h
            simp at h
        | ok sections =>
            cases hr : (processResources env c.Name "uninstalled" sections.Uninstall).2 with
            | some err =>
                rw [uninstallLoop_cons_fail env repoFS nodemetadata st c rest sections err
                  h1 h2 h3 hr] at h
                simp only at h
                have := mem_processResources_not_setVer env c.Name "uninstalled"
                  sections.Uninstall _ h
                simp [Event.isSetVer] at this
            | none =>
                rw [uninstallLoop_cons_ok env repoFS nodemetadata st c rest sections
                  h1 h2 h3 hr] at h
                simp only at h
                rcases List.mem_append.mp h with h' | h'
                · rcases List.mem_append.mp h' with h'' | h''
                  · have := mem_processResources_not_setVer env c.Name "uninstalled"
                      sections.Uninstall _ h''
                    simp [Event.isSetVer] at this
                  · simp at h''
                    exact h''.2
                · exact ih (SetComponentVersion st c.Name "uninstalled") h'

/-- C1 amended-claim witness: the concrete run of the counterexample's
input contains a store write, and the amended claim applies to it: the
written value is the sentinel. -/
theorem uninstall_setVer_only_sentinel_witness :
    Event.setVer "A" "uninstalled"
      ∈ (uninstallComponents okEnv repoA [⟨"A", "2", []⟩] ⟨"p", []⟩ (some [("A", "1")])).1
    ∧ "uninstalled" = "uninstalled" := by
  refine ⟨by decide, ?_⟩
  exact uninstall_setVer_only_sentinel okEnv repoA [⟨"A", "2", []⟩] ⟨"p", []⟩
    (some [("A", "1")]) "A" "uninstalled" (by decide)

/-! Section: Claim C3 — the version applied during uninstall -/

/-- C3 counterexample: component `A` stored at version `1`, target `2`,
whose uninstall recipe removes a templated path, under templating that
appends the `Version` context value to the path. The engine removes
`duninstalled` (the `Version` seen by templating is the literal string
`uninstalled`), not `d1` as the claim's reading — apply against the
currently installed version — predicts; the two runs differ. -/
theorem uninstall_version_context_cex :
    uninstallComponents concatEnv repoU [⟨"A", "2", []⟩] ⟨"p", []⟩ (some [("A", "1")])
      ≠ uninstallComponentsClaimed concatEnv repoU [⟨"A", "2", []⟩] ⟨"p", []⟩
          (some [("A", "1")])
    ∧ Event.file (FileAction.removeAll "duninstalled")
      ∈ (uninstallComponents concatEnv repoU [⟨"A", "2", []⟩] ⟨"p", []⟩
          (some [("A", "1")])).1
    ∧ Event.file (FileAction.removeAll "d1")
      ∉ (uninstallComponents concatEnv repoU [⟨"A", "2", []⟩] ⟨"p", []⟩
          (some [("A", "1")])).1
    ∧ Event.file (FileAction.removeAll "d1")
      ∈ (uninstallComponentsClaimed concatEnv repoU [⟨"A", "2", []⟩] ⟨"p", []⟩
          (some [("A", "1")])).1 := by
  refine ⟨?_, ?_, ?_, ?_⟩ <;> decide

/-- C3 (amended): for a visited component whose store entry exists and
differs from the expanded target, the engine loads the recipe block
selected by the trimmed *stored* version (hypothesis `h3` looks the recipe
up by the stored version) and applies its uninstall groups with the fixed
version string `uninstalled` as the version value — used for path
templating and recorded in the Version Store — not the currently installed
version. -/
theorem uninstall_applies_sentinel_version (env : Env) (repoFS : Repo)
    (nodemetadata : NodeMetadata) (st : VFile) (c : Component) (rest : List Component)
    (sections : ComponentSections)
    (h1 : GetComponentVersion st c.Name ≠ "")
    (h2 : GetComponentVersion st c.Name ≠ expandVersion c.Version nodemetadata.PoolVersion)
    (h3 : componentMetada repoFS c.Name (GetComponentVersion st c.Name) = .ok sections)
    (hr : (processResources env c.Name "uninstalled" sections.Uninstall).2 = none) :
    uninstallLoop env repoFS nodemetadata st (c :: rest)
      = (((processResources env c.Name "uninstalled" sections.Uninstall).1
            ++ [Event.setVer c.Name "uninstalled"])
          ++ (uninstallLoop env repoFS nodemetadata
                (SetComponentVersion st c.Name "uninstalled") rest).1,
         (uninstallLoop env repoFS nodemetadata
            (SetComponentVersion st c.Name "uninstalled") rest).2.1,
         (uninstallLoop env repoFS nodemetadata
            (SetComponentVersion st c.Name "uninstalled") rest).2.2) :=
  uninstallLoop_cons_ok env repoFS nodemetadata st c rest sections h1 h2 h3 hr

/-- C3 amended-claim witness: the counterexample's concrete input
instantiates the amended step equation. -/
theorem uninstall_applies_sentinel_version_witness :
    uninstallLoop concatEnv repoU ⟨"p", []⟩ (some [("A", "1")]) [⟨"A", "2", []⟩]
      = ([Event.file (FileAction.removeAll "duninstalled"),
          Event.sys SysOp.daemonReload,
          Event.setVer "A" "uninstalled"],
         some [("A", "uninstalled")], none) := by
  have h := uninstall_applies_sentinel_version concatEnv repoU ⟨"p", []⟩
    (some [("A", "1")]) ⟨"A", "2", []⟩ []
    ⟨[], [⟨[⟨"absent", "", "d", "", "", ""⟩], [], []⟩]⟩
    (by decide) (by decide) (by rfl) (by rfl)
  rw [h]
  decide

/-! Section: Claim C7 — install writes the version once, after success -/

/-- C7: for a component whose stored version differs from the expanded
target (and whose recipe block resolves), if every install resource group
succeeds the engine's trace for that component is the group applications
followed by exactly one Version Store write of the expanded target (the
store advancing to `Set`), and the group applications themselves contain no
store write; if any group fails, the run aborts with that error and the
store is returned unchanged, with no store write in the trace. -/
theorem install_writes_version_once_after_success (env : Env) (repoFS : Repo)
    (nodemetadata : NodeMetadata) (st : VFile) (c : Component) (rest : List Component)
    (sections : ComponentSections)
    (h1 : GetComponentVersion st c.Name ≠ expandVersion c.Version nodemetadata.PoolVersion)
    (h2 : componentMetada repoFS c.Name (expandVersion c.Version nodemetadata.PoolVersion)
      = .ok sections) :
    ((processResources env c.Name
        (expandVersion c.Version nodemetadata.PoolVersion) sections.Install).2 = none →
      installLoop env repoFS nodemetadata st (c :: rest)
        = (((processResources env c.Name
              (expandVersion c.Version nodemetadata.PoolVersion) sections.Install).1
              ++ [Event.setVer c.Name (expandVersion c.Version nodemetadata.PoolVersion)])
            ++ (installLoop env repoFS nodemetadata
                  (SetComponentVersion st c.Name
                    (expandVersion c.Version nodemetadata.PoolVersion)) rest).1,
           (installLoop env repoFS nodemetadata
              (SetComponentVersion st c.Name
                (expandVersion c.Version nodemetadata.PoolVersion)) rest).2.1,
           (installLoop env repoFS nodemetadata
              (SetComponentVersion st c.Name
                (expandVersion c.Version nodemetadata.PoolVersion)) rest).2.2)
      ∧ (processResources env c.Name
          (expandVersion c.Version nodemetadata.PoolVersion) sections.Install).1.filter
            Event.isSetVer = [])
    ∧ (∀ err, (processResources env c.Name
        (expandVersion c.Version nodemetadata.PoolVersion) sections.Install).2 = some err →
      installLoop env repoFS nodemetadata st (c :: rest)
        = ((processResources env c.Name
              (expandVersion c.Version nodemetadata.PoolVersion) sections.Install).1,
           st, some err)
      ∧ (processResources env c.Name
          (expandVersion c.Version nodemetadata.PoolVersion) sections.Install).1.filter
            Event.isSetVer = []) := by
  constructor
  · intro hr
    exact ⟨installLoop_cons_ok env repoFS nodemetadata st c rest sections h1 h2 hr,
      processResources_filter_setVer env c.Name
        (expandVersion c.Version nodemetadata.PoolVersion) sections.Install⟩
  · intro err hr
    exact ⟨installLoop_cons_fail env repoFS nodemetadata st c rest sections err h1 h2 hr,
      processResources_filter_setVer env c.Name
        (expandVersion c.Version nodemetadata.PoolVersion) sections.Install⟩

/-- C7 witness: a concrete failing install (component `B`, target `2`, one
file group that fails) aborts with the group's error and leaves the store
(a missing file, i.e. the empty store) unchanged, and a concrete
succeeding install writes the version exactly once, at the end. -/
theorem install_writes_version_once_after_success_witness :
    installLoop failEnv repoB ⟨"p", []⟩ none [⟨"B", "2", []⟩]
      = ([Event.file (FileAction.removeAll "d")], none, some "failed to remove d")
    ∧ installLoop okEnv repoA ⟨"p", []⟩ none [⟨"A", "2", []⟩]
      = ([Event.setVer "A" "2"], some [("A", "2")], none) := by
  constructor
  · have h := install_writes_version_once_after_success failEnv repoB ⟨"p", []⟩ none
      ⟨"B", "2", []⟩ [] ⟨[⟨[⟨"absent", "", "d", "", "", ""⟩], [], []⟩], []⟩
      (by decide) (by rfl)
    rw [(h.2 "failed to remove d" (by rfl)).1]
    decide
  · have h := install_writes_version_once_after_success okEnv repoA ⟨"p", []⟩ none
      ⟨"A", "2", []⟩ [] ⟨[], []⟩ (by decide) (by rfl)
    rw [(h.1 (by rfl)).1]
    decide

/-! Section: Frame and postcondition lemmas for the engine loops -/

theorem installLoop_frame (env : Env) (repoFS : Repo) (nodemetadata : NodeMetadata) :
    ∀ (l : List Component) (st : VFile) (k : String),
      k ∉ l.map Component.Name →
      GetComponentVersion (installLoop env repoFS nodemetadata st l).2.1 k
        = GetComponentVersion st k := by
  intro l
  induction l with
  | nil => intro st k _; rfl
  | cons c rest ih =>
      intro st k hk
      simp only [List.map_cons, List.mem_cons, not_or] at hk
      obtain ⟨hk1, hk2⟩ := hk
      by_cases hskip : GetComponentVersion st c.Name
          = expandVersion c.Version nodemetadata.PoolVersion
      · rw [installLoop_cons_skip env repoFS nodemetadata st c rest hskip]
        exact ih st k hk2
      · cases h2 : componentMetada repoFS c.Name
            (expandVersion c.Version nodemetadata.PoolVersion) with
        | error err =>
            rw [installLoop_cons_lookup_err env repoFS nodemetadata st c rest err hskip h2]
        | ok sections =>
            cases hr : (processResources env c.Name
                (expandVersion c.Version nodemetadata.PoolVersion) sections.Install).2 with
            | some err =>
                rw [installLoop_cons_fail env repoFS nodemetadata st c rest sections err
                  hskip h2 hr]
            | none =>
                rw [installLoop_cons_ok env repoFS nodemetadata st c rest sections
                  hskip h2 hr]
                dsimp only
                rw [ih _ k hk2, get_set_other _ _ _ _ hk1]

theorem uninstallLoop_frame (env : Env) (repoFS : Repo) (nodemetadata : NodeMetadata) :
    ∀ (l : List Component) (st : VFile) (k : String),
      k ∉ l.map Component.Name →
      GetComponentVersion (uninstallLoop env repoFS nodemetadata st l).2.1 k
        = GetComponentVersion st k := by
  intro l
  induction l with
  | nil => intro st k _; rfl
  | cons c rest ih =>
      intro st k hk
      simp only [List.map_cons, List.mem_cons, not_or] at hk
      obtain ⟨hk1, hk2⟩ := hk
      by_cases hskip : GetComponentVersion st c.Name = ""
          ∨ GetComponentVersion st c.Name = expandVersion c.Version nodemetadata.PoolVersion
      · rw [uninstallLoop_cons_skip env repoFS nodemetadata st c rest hskip]
        exact ih st k hk2
      · obtain ⟨h1, h2⟩ := not_or.mp hskip
        cases h3 : componentMetada repoFS c.Name (GetComponentVersion st c.Name) with
        | error err =>
            rw [uninstallLoop_cons_lookup_err env repoFS nodemetadata st c rest err h1 h2 h3]
        | ok sections =>
            cases hr : (processResources env c.Name "uninstalled" sections.Uninstall).2 with
            | some err =>
                rw [uninstallLoop_cons_fail env repoFS nodemetadata st c rest sections err
                  h1 h2 h3 hr]
            | none =>
                rw [uninstallLoop_cons_ok env repoFS nodemetadata st c rest sections
                  h1 h2 h3 hr]
                dsimp only
                rw [ih _ k hk2, get_set_other _ _ _ _ hk1]

theorem installLoop_post (env : Env) (repoFS : Repo) (nodemetadata : NodeMetadata) :
    ∀ (l : List Component) (st : VFile),
      (l.map Component.Name).Nodup →
      (installLoop env repoFS nodemetadata st l).2.2 = none →
      ∀ c ∈ l, GetComponentVersion (installLoop env repoFS nodemetadata st l).2.1 c.Name
        = expandVersion c.Version nodemetadata.PoolVersion := by
  intro l
  induction l with
  | nil => intro st _ _ c hc; simp at hc
  | cons c0 rest ih =>
      intro st hnd hsucc c hc
      simp only [List.map_cons, List.nodup_cons] at hnd
      obtain ⟨hn0, hnd'⟩ := hnd
      by_cases hskip : GetComponentVersion st c0.Name
          = expandVersion c0.Version nodemetadata.PoolVersion
      · rw [installLoop_cons_skip env repoFS nodemetadata st c0 rest hskip] at hsucc ⊢
        rcases List.mem_cons.mp hc with rfl | hc'
        · rw [installLoop_frame env repoFS nodemetadata rest st c.Name
            (by simpa using hn0)]
          exact hskip
        · exact ih st hnd' hsucc c hc'
      · cases h2 : componentMetada repoFS c0.Name
            (expandVersion c0.Version nodemetadata.PoolVersion) with
        | error err =>
            rw [installLoop_cons_lookup_err env repoFS nodemetadata st c0 rest err
              hskip h2] at hsucc
            simp at hsucc
        | ok sections =>
            cases hr : (processResources env c0.Name
                (expandVersion c0.Version nodemetadata.PoolVersion) sections.Install).2 with
            | some err =>
                rw [installLoop_cons_fail env repoFS nodemetadata st c0 rest sections err
                  hskip h2 hr] at hsucc
                simp at hsucc
            | none =>
                rw [installLoop_cons_ok env repoFS nodemetadata st c0 rest sections
                  hskip h2 hr] at hsucc ⊢
                dsimp only at hsucc ⊢
                rcases List.mem_cons.mp hc with rfl | hc'
                · rw [installLoop_frame env repoFS nodemetadata rest _ c.Name
                    (by simpa using hn0)]
                  exact get_set_same st c.Name _
                · exact ih _ hnd' hsucc c hc'

theorem installLoop_skip_all (env : Env) (repoFS : Repo) (nodemetadata : NodeMetadata) :
    ∀ (l : List Component) (st : VFile),
      (∀ c ∈ l, GetComponentVersion st c.Name
        = expandVersion c.Version nodemetadata.PoolVersion) →
      installLoop env repoFS nodemetadata st l = ([], st, none) := by
  intro l
  induction l with
  | nil => intro st _; rfl
  | cons c rest ih =>
      intro st h
      rw [installLoop_cons_skip env repoFS nodemetadata st c rest
        (h c (List.mem_cons_self c rest))]
      exact ih st (fun c' hc' => h c' (List.mem_cons_of_mem c hc'))

theorem uninstallLoop_skip_all (env : Env) (repoFS : Repo) (nodemetadata : NodeMetadata) :
    ∀ (l : List Component) (st : VFile),
      (∀ c ∈ l, GetComponentVersion st c.Name = ""
        ∨ GetComponentVersion st c.Name = expandVersion c.Version nodemetadata.PoolVersion) →
      uninstallLoop env repoFS nodemetadata st l = ([], st, none) := by
  intro l
  induction l with
  | nil => intro st _; rfl
  | cons c rest ih =>
      intro st h
      rw [uninstallLoop_cons_skip env repoFS nodemetadata st c rest
        (h c (List.mem_cons_self c rest))]
      exact ih st (fun c' hc' => h c' (List.mem_cons_of_mem c hc'))

theorem processComponents_resolved (env : Env) (repoFS : Repo) (releases : Releases)
    (nodemetadata : NodeMetadata) (st : VFile) (comps : List Component)
    (h : releaseComponents releases nodemetadata = .ok comps) :
    processComponents env repoFS releases nodemetadata st
      = runEngine env repoFS comps nodemetadata st := by
  unfold processComponents
  rw [h]

theorem runEngine_parts (env : Env) (repoFS : Repo) (comps : List Component)
    (nodemetadata : NodeMetadata) (st : VFile) (tu : List Event) (stu : VFile)
    (ti : List Event) (sti : VFile) (ei : Option String)
    (hu : uninstallComponents env repoFS comps nodemetadata st = (tu, stu, none))
    (hi : installComponents env repoFS comps nodemetadata stu = (ti, sti, ei)) :
    runEngine env repoFS comps nodemetadata st = (tu ++ ti, sti, ei) := by
  unfold runEngine
  simp only [hu]
  simp only [hi]

theorem runEngine_abort (env : Env) (repoFS : Repo) (comps : List Component)
    (nodemetadata : NodeMetadata) (st : VFile) (tu : List Event) (stu : VFile)
    (err : String)
    (hu : uninstallComponents env repoFS comps nodemetadata st = (tu, stu, some err)) :
    runEngine env repoFS comps nodemetadata st = (tu, stu, some err) := by
  unfold runEngine
  simp only [hu]

/-! Section: Claim C2 — full idempotence of the engine run -/

/-- C2: if one full run (uninstall pass then install pass, after resolving
the component list from the manifest for the pool version and tags)
succeeds, a second run with the same manifest, pool version, tags and
collaborators performs no operation at all: its trace is empty — no file,
service, script or store operation — and it succeeds leaving the store
untouched. Component names are assumed unique within the resolved list, as
the manifest invariant guarantees. -/
theorem engine_second_run_no_ops (env : Env) (repoFS : Repo) (releases : Releases)
    (nodemetadata : NodeMetadata) (st st1 : VFile) (t1 : List Event)
    (comps : List Component)
    (hres : releaseComponents releases nodemetadata = .ok comps)
    (hnd : (comps.map Component.Name).Nodup)
    (hrun : processComponents env repoFS releases nodemetadata st = (t1, st1, none)) :
    processComponents env repoFS releases nodemetadata st1 = ([], st1, none) := by
  rw [processComponents_resolved env repoFS releases nodemetadata st comps hres] at hrun
  rcases hu : uninstallComponents env repoFS comps nodemetadata st with ⟨tu, stu, eu⟩
  cases eu with
  | some err =>
      rw [runEngine_abort env repoFS comps nodemetadata st tu stu err hu] at hrun
      simp [Prod.ext_iff] at hrun
  | none =>
      rcases hi : installComponents env repoFS comps nodemetadata stu with ⟨ti, sti, ei⟩
      rw [runEngine_parts env repoFS comps nodemetadata st tu stu ti sti ei hu hi] at hrun
      obtain ⟨-, hst, hei⟩ : tu ++ ti = t1 ∧ sti = st1 ∧ ei = none := by
        simpa [Prod.ext_iff] using hrun
      subst hst
      subst hei
      have hi' : installLoop env repoFS nodemetadata stu comps = (ti, sti, none) := hi
      have hpost : ∀ c ∈ comps,
          GetComponentVersion sti c.Name
            = expandVersion c.Version nodemetadata.PoolVersion := by
        intro c hc
        have := installLoop_post env repoFS nodemetadata comps stu hnd
          (by rw [hi']) c hc
        rwa [hi'] at this
      have hu2 : uninstallComponents env repoFS comps nodemetadata sti
          = ([], sti, none) := by
        unfold uninstallComponents
        exact uninstallLoop_skip_all env repoFS nodemetadata comps.reverse sti
          (fun c hc => Or.inr (hpost c (List.mem_reverse.mp hc)))
      have hi2 : installComponents env repoFS comps nodemetadata sti
          = ([], sti, none) := by
        unfold installComponents
        exact installLoop_skip_all env repoFS nodemetadata comps sti hpost
      rw [processComponents_resolved env repoFS releases nodemetadata sti comps hres,
        runEngine_parts env repoFS comps nodemetadata sti [] sti [] sti none hu2 hi2]
      rfl

/-- C2 witness: the spec's §8 scenario — manifest `1.30` with `cni@1.2.0`
and `kubelet@~2`, empty tag set, fresh node (missing store file). The first
run installs both components; the second run performs zero operations. -/
theorem engine_second_run_no_ops_witness :
    processComponents okEnv scenarioRepo scenarioReleases ⟨"1.30", []⟩
        (some [("cni", "1.2.0"), ("kubelet", "1.30~2")])
      = ([], some [("cni", "1.2.0"), ("kubelet", "1.30~2")], none) := by
  exact engine_second_run_no_ops okEnv scenarioRepo scenarioReleases ⟨"1.30", []⟩
    none (some [("cni", "1.2.0"), ("kubelet", "1.30~2")])
    [Event.setVer "cni" "1.2.0", Event.setVer "kubelet" "1.30~2"]
    [⟨"cni", "1.2.0", []⟩, ⟨"kubelet", "~2", []⟩]
    (by rfl) (by decide) (by decide)

/-! Section: Claim C5 — visit order of the two passes -/

/-- The component names of the Version Store writes in a trace, in order:
one entry per component actually processed (each processed component ends
with exactly one store write). -/
def setVerNames : List Event → List String :=
  List.filterMap (fun e => match e with | .setVer n _ => some n | _ => none)

theorem setVerNames_processResources (env : Env) (name version : String)
    (resources : List ComponentResources) :
    setVerNames (processResources env name version resources).1 = [] := by
  unfold setVerNames
  rw [List.filterMap_eq_nil_iff]
  intro e he
  have := mem_processResources_not_setVer env name version resources e he
  cases e <;> simp_all [Event.isSetVer]

theorem uninstallLoop_all (env : Env) (repoFS : Repo) (nodemetadata : NodeMetadata) :
    ∀ (l : List Component) (st : VFile),
      (l.map Component.Name).Nodup →
      (∀ c ∈ l, GetComponentVersion st c.Name ≠ ""
        ∧ GetComponentVersion st c.Name ≠ expandVersion c.Version nodemetadata.PoolVersion
        ∧ ∃ sections,
            componentMetada repoFS c.Name (GetComponentVersion st c.Name) = .ok sections
            ∧ (processResources env c.Name "uninstalled" sections.Uninstall).2 = none) →
      (uninstallLoop env repoFS nodemetadata st l).2.2 = none
      ∧ setVerNames (uninstallLoop env repoFS nodemetadata st l).1 = l.map Component.Name
      ∧ ∀ k, GetComponentVersion (uninstallLoop env repoFS nodemetadata st l).2.1 k
          = if k ∈ l.map Component.Name then "uninstalled"
            else GetComponentVersion st k := by
  intro l
  induction l with
  | nil =>
      intro st _ _
      refine ⟨rfl, rfl, fun k => ?_⟩
      simp [uninstallLoop]
  | cons c rest ih =>
      intro st hnd H
      simp only [List.map_cons, List.nodup_cons] at hnd
      obtain ⟨hn0, hnd'⟩ := hnd
      obtain ⟨h1, h2, sections, h3, hr⟩ := H c (List.mem_cons_self c rest)
      have Hrest : ∀ c' ∈ rest,
          GetComponentVersion (SetComponentVersion st c.Name "uninstalled") c'.Name ≠ ""
          ∧ GetComponentVersion (SetComponentVersion st c.Name "uninstalled") c'.Name
              ≠ expandVersion c'.Version nodemetadata.PoolVersion
          ∧ ∃ sections', componentMetada repoFS c'.Name
              (GetComponentVersion (SetComponentVersion st c.Name "uninstalled") c'.Name)
                = .ok sections'
              ∧ (processResources env c'.Name "uninstalled" sections'.Uninstall).2
                  = none := by
        intro c' hc'
        have hne : c'.Name ≠ c.Name := by
          intro he
          exact hn0 (he ▸ List.mem_map_of_mem Component.Name hc')
        rw [get_set_other st c.Name "uninstalled" c'.Name hne]
        exact H c' (List.mem_cons_of_mem c hc')
      obtain ⟨e2, names2, char2⟩ :=
        ih (SetComponentVersion st c.Name "uninstalled") hnd' Hrest
      rw [uninstallLoop_cons_ok env repoFS nodemetadata st c rest sections h1 h2 h3 hr]
      dsimp only
      refine ⟨e2, ?_, ?_⟩
      · unfold setVerNames at names2 ⊢
        rw [List.filterMap_append, List.filterMap_append]
        rw [show List.filterMap
            (fun e => match e with | .setVer n _ => some n | _ => none)
            (processResources env c.Name "uninstalled" sections.Uninstall).1 = []
          from setVerNames_processResources env c.Name "uninstalled" sections.Uninstall]
        rw [names2]
        rfl
      · intro k
        rw [char2 k]
        by_cases hk : k ∈ rest.map Component.Name
        · simp [hk]
        · by_cases hkc : k = c.Name
          · subst hkc
            simp [hk, get_set_same]
          · simp [hk, hkc, get_set_other st c.Name "uninstalled" k hkc]

theorem installLoop_all (env : Env) (repoFS : Repo) (nodemetadata : NodeMetadata) :
    ∀ (l : List Component) (st : VFile),
      (l.map Component.Name).Nodup →
      (∀ c ∈ l,
        GetComponentVersion st c.Name ≠ expandVersion c.Version nodemetadata.PoolVersion
        ∧ ∃ sections, componentMetada repoFS c.Name
            (expandVersion c.Version nodemetadata.PoolVersion) = .ok sections
            ∧ (processResources env c.Name
                (expandVersion c.Version nodemetadata.PoolVersion) sections.Install).2
              = none) →
      (installLoop env repoFS nodemetadata st l).2.2 = none
      ∧ setVerNames (installLoop env repoFS nodemetadata st l).1
          = l.map Component.Name := by
  intro l
  induction l with
  | nil => intro st _ _; exact ⟨rfl, rfl⟩
  | cons c rest ih =>
      intro st hnd H
      simp only [List.map_cons, List.nodup_cons] at hnd
      obtain ⟨hn0, hnd'⟩ := hnd
      obtain ⟨h1, sections, h2, hr⟩ := H c (List.mem_cons_self c rest)
      have Hrest : ∀ c' ∈ rest,
          GetComponentVersion (SetComponentVersion st c.Name
              (expandVersion c.Version nodemetadata.PoolVersion)) c'.Name
            ≠ expandVersion c'.Version nodemetadata.PoolVersion
          ∧ ∃ sections', componentMetada repoFS c'.Name
              (expandVersion c'.Version nodemetadata.PoolVersion) = .ok sections'
              ∧ (processResources env c'.Name
                  (expandVersion c'.Version nodemetadata.PoolVersion)
                    sections'.Install).2 = none := by
        intro c' hc'
        have hne : c'.Name ≠ c.Name := by
          intro he
          exact hn0 (he ▸ List.mem_map_of_mem Component.Name hc')
        rw [get_set_other st c.Name _ c'.Name hne]
        exact H c' (List.mem_cons_of_mem c hc')
      obtain ⟨e2, names2⟩ := ih (SetComponentVersion st c.Name
        (expandVersion c.Version nodemetadata.PoolVersion)) hnd' Hrest
      rw [installLoop_cons_ok env repoFS nodemetadata st c rest sections h1 h2 hr]
      dsimp only
      refine ⟨e2, ?_⟩
      unfold setVerNames at names2 ⊢
      rw [List.filterMap_append, List.filterMap_append]
      rw [show List.filterMap
          (fun e => match e with | .setVer n _ => some n | _ => none)
          (processResources env c.Name
            (expandVersion c.Version nodemetadata.PoolVersion) sections.Install).1 = []
        from setVerNames_processResources env c.Name
          (expandVersion c.Version nodemetadata.PoolVersion) sections.Install]
      rw [names2]
      rfl

/-- C5: when every component of the list changes version (store entry
present and different from the expanded target, recipes resolving and their
groups succeeding, and the target never colliding with the sentinel), the
uninstall pass processes the components in exactly the reverse of manifest
order and the install pass processes them in exactly manifest order, both
passes succeeding — read off the per-component Version Store writes of each
pass's trace. -/
theorem engine_visit_order (env : Env) (repoFS : Repo) (comps : List Component)
    (nodemetadata : NodeMetadata) (st : VFile)
    (hnd : (comps.map Component.Name).Nodup)
    (H : ∀ c ∈ comps,
      GetComponentVersion st c.Name ≠ ""
      ∧ GetComponentVersion st c.Name ≠ expandVersion c.Version nodemetadata.PoolVersion
      ∧ expandVersion c.Version nodemetadata.PoolVersion ≠ "uninstalled"
      ∧ (∃ sections,
          componentMetada repoFS c.Name (GetComponentVersion st c.Name) = .ok sections
          ∧ (processResources env c.Name "uninstalled" sections.Uninstall).2 = none)
      ∧ (∃ sections, componentMetada repoFS c.Name
          (expandVersion c.Version nodemetadata.PoolVersion) = .ok sections
          ∧ (processResources env c.Name
              (expandVersion c.Version nodemetadata.PoolVersion) sections.Install).2
            = none)) :
    setVerNames (uninstallComponents env repoFS comps nodemetadata st).1
      = (comps.map Component.Name).reverse
    ∧ (uninstallComponents env repoFS comps nodemetadata st).2.2 = none
    ∧ setVerNames (installComponents env repoFS comps nodemetadata
        (uninstallComponents env repoFS comps nodemetadata st).2.1).1
      = comps.map Component.Name
    ∧ (installComponents env repoFS comps nodemetadata
        (uninstallComponents env repoFS comps nodemetadata st).2.1).2.2 = none := by
  have hndr : (comps.reverse.map Component.Name).Nodup := by
    rw [List.map_reverse]
    exact List.nodup_reverse.mpr hnd
  have hU := uninstallLoop_all env repoFS nodemetadata comps.reverse st hndr
    (fun c hc =>
      have h := H c (List.mem_reverse.mp hc)
      ⟨h.1, h.2.1, h.2.2.2.1⟩)
  obtain ⟨hUe, hUnames, hUchar⟩ := hU
  have hI := installLoop_all env repoFS nodemetadata comps
    (uninstallLoop env repoFS nodemetadata st comps.reverse).2.1 hnd
    (fun c hc => by
      have h := H c hc
      have hmem : c.Name ∈ comps.reverse.map Component.Name := by
        rw [List.map_reverse]
        exact List.mem_reverse.mpr (List.mem_map_of_mem Component.Name hc)
      constructor
      · rw [hUchar c.Name]
        simp only [hmem, if_true]
        exact fun he => h.2.2.1 he.symm
      · exact h.2.2.2.2)
  refine ⟨?_, hUe, hI.2, hI.1⟩
  unfold uninstallComponents
  rw [hUnames, List.map_reverse]

/-- Repository giving every component the empty recipe blocks `1` and
`2`. -/
def repoAll : Repo := fun _ => some [("1", ⟨[], []⟩), ("2", ⟨[], []⟩)]

/-- C5 witness: `[A, B, C]`, all moving from stored `1` to target `2` —
the uninstall pass writes `C, B, A`, the install pass `A, B, C`. -/
theorem engine_visit_order_witness :
    setVerNames (uninstallComponents okEnv repoAll
        [⟨"A", "2", []⟩, ⟨"B", "2", []⟩, ⟨"C", "2", []⟩] ⟨"p", []⟩
        (some [("A", "1"), ("B", "1"), ("C", "1")])).1
      = ["C", "B", "A"]
    ∧ setVerNames (installComponents okEnv repoAll
        [⟨"A", "2", []⟩, ⟨"B", "2", []⟩, ⟨"C", "2", []⟩] ⟨"p", []⟩
        (uninstallComponents okEnv repoAll
          [⟨"A", "2", []⟩, ⟨"B", "2", []⟩, ⟨"C", "2", []⟩] ⟨"p", []⟩
          (some [("A", "1"), ("B", "1"), ("C", "1")])).2.1).1
      = ["A", "B", "C"] := by
  have h := engine_visit_order okEnv repoAll
    [⟨"A", "2", []⟩, ⟨"B", "2", []⟩, ⟨"C", "2", []⟩] ⟨"p", []⟩
    (some [("A", "1"), ("B", "1"), ("C", "1")])
    (by decide)
    (by
      intro c hc
      fin_cases hc <;>
        exact ⟨by decide, by decide, by decide, ⟨⟨[], []⟩, rfl, rfl⟩,
          ⟨⟨[], []⟩, rfl, rfl⟩⟩)
  exact ⟨h.1.trans (by decide), h.2.2.1.trans (by decide)⟩

/-! Section: Claim C9 — the sync handler and the upgrade trigger -/

/-- C9: when the node's upgrade-trigger annotation carries the sentinel
value `upgrade` (and the credential fetch, metadata fetch, component run
and node update succeed), the sync handler emits the starting event, runs
the full reinstall, clears the trigger annotation on the node, and then
runs the annotation reconciliation. When the trigger is absent or carries
any other value, no reinstall happens: the handler leaves the node object
untouched and only the annotation reconciliation runs. -/
theorem sync_handler_upgrade_trigger (node : KNode) (userDataOK metadataOK : Bool)
    (installErr : Option String) (updateOK : Bool) (syncErr : Option String) :
    (node.annotations.lookup agentAnnotation = some "upgrade" →
      syncHandler node true true none true syncErr
        = ([.eventStarting, .reinstall, .clearTrigger, .annotationsSync],
           ⟨node.annotations.filter (fun p => p.1 ≠ agentAnnotation)⟩, syncErr))
    ∧ (node.annotations.lookup agentAnnotation ≠ some "upgrade" →
      syncHandler node userDataOK metadataOK installErr updateOK syncErr
        = ([.annotationsSync], node, syncErr)
      ∧ CtrlEvent.reinstall
        ∉ (syncHandler node userDataOK metadataOK installErr updateOK syncErr).1) := by
  constructor
  · intro h
    unfold syncHandler upgradeNode
    rw [h]
    rfl
  · intro h
    have hup : upgradeNode node userDataOK metadataOK installErr updateOK
        = ([], node, none) := by
      unfold upgradeNode
      cases hl : node.annotations.lookup agentAnnotation with
      | none => rfl
      | some value =>
          have hv : value ≠ "upgrade" := by
            intro he
            exact h (by rw [hl, he])
          simp [hv]
    constructor
    · unfold syncHandler
      rw [hup]
      rfl
    · unfold syncHandler
      rw [hup]
      simp

/-- C9 witness: a node carrying the sentinel triggers the reinstall and
loses the trigger annotation; a node carrying another value is handled by
annotation reconciliation alone. -/
theorem sync_handler_upgrade_trigger_witness :
    syncHandler ⟨[("k8s.scaleway.com/agent", "upgrade"), ("x", "y")]⟩ true true none true none
      = ([.eventStarting, .reinstall, .clearTrigger, .annotationsSync],
         ⟨[("x", "y")]⟩, none)
    ∧ syncHandler ⟨[("k8s.scaleway.com/agent", "done")]⟩ true true none true none
      = ([.annotationsSync], ⟨[("k8s.scaleway.com/agent", "done")]⟩, none) := by
  constructor
  · have h := (sync_handler_upgrade_trigger
      ⟨[("k8s.scaleway.com/agent", "upgrade"), ("x", "y")]⟩ true true none true none).1
      (by decide)
    rw [h]
    decide
  · have h := (sync_handler_upgrade_trigger
      ⟨[("k8s.scaleway.com/agent", "done")]⟩ true true none true none).2
      (by decide)
    exact h.1

end K8sAgent
